import Mathlib

/-!
Verification development for the Security-Recovery-Core (SRC) repository.

The repository ships a platform abstraction header (`src/firmware/src/platform.h`)
declaring the primitive operations the recovery core consumes, and a README
describing the feature set (automatic backup, recovery, data preservation).
The recovery core itself (flash region map, integrity verifier, backup manager,
restore engine, boot decision state machine) is not present in source; it is
modelled here from the specification document, while the platform interface
surface is embedded directly from the header.

Machine integers (`u32`, bytes) are modelled as `Nat`; flash region contents
are byte-indexed functions `Nat → Nat`; fallible operations return error
options / `Except`.
-/

namespace SRC

/-- A byte string (payload, hash, signature). -/
abbrev Bytes := List Nat

/-- Flash region content: the byte stored at each offset of the region. -/
abbrev Content := Nat → Nat

/-- The value a flash byte holds after an erase. -/
def erasedByte : Nat := 255

/-- Modelled from the spec (§3 data model): `FlashRegion` descriptor
`{ base_offset, size, erase_block_size }`, extended with the designated
user-data sub-region (`user_ofs`, `user_len`, with `user_len = 0` when the
layout reserves none) that §4.4 requires restores to preserve. -/
structure FlashRegion where
  base_offset : Nat
  size : Nat
  erase_block_size : Nat
  user_ofs : Nat
  user_len : Nat
deriving DecidableEq

/-- Modelled from the spec (§3 data model): `ImageMetadata` stored in the
region header. The derived, never-persisted `valid` flag is not a stored
field; it is recomputed by `verify`. -/
structure ImageMetadata where
  magic : Nat
  version : Nat
  size : Nat
  hash : Bytes
  signature : Bytes
  created_at : Nat
deriving DecidableEq

/-- Header magic constant used by the structural sanity check (§4.2). -/
def METADATA_MAGIC : Nat := 0x53524331

/-- A flash region's observable state: the metadata header (`none` when the
header is erased / unreadable) and the stored bytes. -/
structure RegionState where
  meta : Option ImageMetadata
  content : Content

/-- Modelled from the spec (§6 external interfaces): the opaque crypto
primitives the core consumes — `platform_sha256` (total, returns `void` in
the header, hence a total function here) and `platform_verify` (signature
validation over a hash). Their internals are external to the core. -/
structure Crypto where
  sha256 : Bytes → Bytes
  verifySig : Bytes → Bytes → Bool

/-- Modelled from the spec (§4.2): verification outcomes. -/
inductive VerificationResult where
  | Trusted
  | HashMismatch
  | SignatureMismatch
  | MetadataCorrupt
  | RegionEmpty
deriving DecidableEq

/-- True at offsets inside the designated user-data sub-region. -/
def inUser (lay : FlashRegion) (i : Nat) : Bool :=
  decide (lay.user_ofs ≤ i) && decide (i < lay.user_ofs + lay.user_len)

/-- Capacity available to the firmware image in a region: the whole region,
or the part before the reserved user-data sub-region when one exists. -/
def fwCapacity (lay : FlashRegion) : Nat :=
  if lay.user_len = 0 then lay.size else min lay.user_ofs lay.size

/-- Modelled from the spec (§4.2): structural sanity check on a stored
metadata header — magic, version, declared size within the region's
firmware capacity, well-formed SHA-256 hash field. -/
def metaSane (lay : FlashRegion) (m : ImageMetadata) : Bool :=
  decide (m.magic = METADATA_MAGIC) && decide (0 < m.version) &&
    decide (m.hash.length = 32) && decide (m.size ≤ fwCapacity lay)

/-- The payload a region's metadata declares: the first `m.size` stored bytes. -/
def regionPayload (m : ImageMetadata) (r : RegionState) : Bytes :=
  (List.range m.size).map r.content

/-- Modelled from the spec (§4.2 Integrity Verifier): read the header; a
structurally insane header is `MetadataCorrupt`; else recompute SHA-256 over
the declared payload and compare with the stored hash; else validate the
stored signature over the hash; all checks passing yields `Trusted`. -/
def verify (c : Crypto) (lay : FlashRegion) (r : RegionState) : VerificationResult :=
  match r.meta with
  | none => .RegionEmpty
  | some m =>
    if metaSane lay m = true then
      if c.sha256 (regionPayload m r) = m.hash then
        if c.verifySig m.hash m.signature = true then .Trusted
        else .SignatureMismatch
      else .HashMismatch
    else .MetadataCorrupt

/-- Modelled from the spec (§4.1 Flash Region Map): error of `translate`. -/
inductive TranslateError where
  | OutOfBounds
deriving DecidableEq

/-- Modelled from the spec (§4.1 Flash Region Map): translate a
region-relative offset of an access of `len` bytes to an absolute flash
offset; fails with `OutOfBounds` when `offset + len > region.size`. -/
def translate (r : FlashRegion) (offset len : Nat) : Except TranslateError Nat :=
  if r.size < offset + len then .error .OutOfBounds
  else .ok (r.base_offset + offset)

/-- Overwrite one stored byte of a region (used to state tamper claims). -/
def setByte (r : RegionState) (i b : Nat) : RegionState :=
  { r with content := fun j => if j = i then b else r.content j }

/-- Injective encoding of a byte string into one natural number, used by
the toy stand-in for the opaque hash primitive. -/
def encodeBytes : Bytes → Nat
  | [] => 0
  | b :: bs => Nat.pair b (encodeBytes bs) + 1

/-- Toy instantiation of the opaque hash primitive, used only to evaluate
the development on concrete inputs: a collision-free 32-entry digest. -/
def toySha (bs : Bytes) : Bytes :=
  encodeBytes bs :: List.replicate 31 0

/-- Toy crypto bundle: `toySha` plus a signature scheme whose valid
signature for hash `h` is `90 :: h`. -/
def toyCrypto : Crypto :=
  { sha256 := toySha
    verifySig := fun h s => s == 90 :: h }

/-- Concrete layout: 8-byte region, 4-byte erase blocks, no user area. -/
def lay0 : FlashRegion := ⟨0, 8, 4, 8, 0⟩

/-- Concrete sane metadata for the 4-byte payload `[1,2,3,4]`. -/
def meta0 : ImageMetadata :=
  ⟨METADATA_MAGIC, 1, 4, toySha [1, 2, 3, 4], 90 :: toySha [1, 2, 3, 4], 0⟩

/-- Concrete region holding payload `[1,2,3,4]` with valid metadata. -/
def reg0 : RegionState :=
  ⟨some meta0, fun i => [1, 2, 3, 4].getD i erasedByte⟩

/-! ### Transfer engine (shared by Backup Manager and Restore Engine)

Modelled from the spec (§4.3 / §4.4): erase the destination in erase-block
units sequentially from low to high offset, copy the payload in bounded
chunks, verify the post-copy hash, and write metadata last. Restores
additionally exclude the designated user-data sub-region from the erase and
copy range. Flash faults are injected through a `Faults` schedule; every
issued flash command (including a failing attempt) is recorded as an event.
-/

/-- Flash mutation targets (which region a command addresses). -/
inductive WTarget where
  | activeR
  | backupR
  | factoryR
deriving DecidableEq

/-- Flash command events: block erase, chunk write, metadata-header write. -/
inductive FlashEv where
  | eraseEv (t : WTarget) (blk : Nat)
  | writeEv (t : WTarget) (chunk : Nat)
  | metaEv (t : WTarget)
deriving DecidableEq

/-- Fault schedule for one transfer: erase fails at block `k`, payload
write fails at chunk `j`, a written byte is silently corrupted, or the
final metadata write fails. -/
structure Faults where
  eraseFail : Option Nat
  writeFail : Option Nat
  corrupt : Option (Nat × Nat)
  metaFail : Bool

/-- The fault-free schedule. -/
def noFaults : Faults := ⟨none, none, none, false⟩

/-- Bounded chunk size used for payload copies (§4.2/§4.3: flash transfers
stream in bounded chunks). -/
def chunkSz : Nat := 256

/-- Number of erase blocks covering a region. -/
def numBlocks (lay : FlashRegion) : Nat := lay.size / lay.erase_block_size

/-- Number of bounded chunks covering an `n`-byte payload. -/
def numChunks (n : Nat) : Nat := (n + chunkSz - 1) / chunkSz

/-- Blocks actually erased before the transfer's erase phase stops. -/
def eraseStopAt (f : Faults) (nB : Nat) : Nat :=
  match f.eraseFail with
  | none => nB
  | some k => min k nB

/-- Whether the erase phase hits an injected fault. -/
def eraseFaulted (f : Faults) (nB : Nat) : Bool :=
  match f.eraseFail with
  | none => false
  | some k => decide (k < nB)

/-- Erase commands issued (a failing attempt is still issued). -/
def eraseEvCount (f : Faults) (nB : Nat) : Nat :=
  match f.eraseFail with
  | none => nB
  | some k => min (k + 1) nB

/-- Chunks actually written before the copy phase stops. -/
def writeStopAt (f : Faults) (nC : Nat) : Nat :=
  match f.writeFail with
  | none => nC
  | some j => min j nC

/-- Whether the copy phase hits an injected fault. -/
def writeFaulted (f : Faults) (nC : Nat) : Bool :=
  match f.writeFail with
  | none => false
  | some j => decide (j < nC)

/-- Write commands issued (a failing attempt is still issued). -/
def writeEvCount (f : Faults) (nC : Nat) : Nat :=
  match f.writeFail with
  | none => nC
  | some j => min (j + 1) nC

/-- Erase one block: bytes of block `k` become `erasedByte`, except bytes
of the user-data sub-region when `pu` (preserve-user) is set. -/
def eraseBlockOp (pu : Bool) (lay : FlashRegion) (k : Nat) (cnt : Content) : Content :=
  fun i =>
    if k * lay.erase_block_size ≤ i ∧ i < (k + 1) * lay.erase_block_size ∧
        (pu && inUser lay i) = false then erasedByte
    else cnt i

/-- Erase the first `k` blocks sequentially from low to high offset. -/
def eraseBlocks (pu : Bool) (lay : FlashRegion) : Nat → Content → Content
  | 0, cnt => cnt
  | k + 1, cnt => eraseBlockOp pu lay k (eraseBlocks pu lay k cnt)

/-- Write one bounded chunk of the payload image, skipping the user-data
sub-region when `pu` is set. -/
def writeChunkOp (pu : Bool) (lay : FlashRegion) (img : Bytes) (j : Nat)
    (cnt : Content) : Content :=
  fun i =>
    if j * chunkSz ≤ i ∧ i < (j + 1) * chunkSz ∧ i < img.length ∧
        (pu && inUser lay i) = false then img.getD i erasedByte
    else cnt i

/-- Write the first `j` chunks sequentially from low to high offset. -/
def writeChunks (pu : Bool) (lay : FlashRegion) (img : Bytes) : Nat → Content → Content
  | 0, cnt => cnt
  | j + 1, cnt => writeChunkOp pu lay img j (writeChunks pu lay img j cnt)

/-- Apply the injected silent write corruption, if any: one byte inside the
written range (the copy never addresses the preserved user sub-region). -/
def applyCorrupt (f : Faults) (pu : Bool) (lay : FlashRegion) (len : Nat)
    (cnt : Content) : Content :=
  match f.corrupt with
  | none => cnt
  | some kv =>
    fun i =>
      if i = kv.1 ∧ i < len ∧ (pu && inUser lay i) = false then kv.2
      else cnt i

/-- Transfer-engine failure cases. -/
inductive XferErr where
  | outOfBounds
  | eraseFailed
  | writeFailed
  | postHashMismatch
  | metaWriteFailed
deriving DecidableEq

/-- Modelled from the spec (§4.3 algorithm, mirrored by §4.4): one
erase-copy-verify-metadata transfer of image `img` with header `m` into the
destination region. The image must fit the destination's firmware capacity
(every access is bounds-checked, §4.1); the erase runs block by block from
low to high; the copy runs in bounded chunks; the recomputed post-copy hash
must match `m.hash`; the metadata header is written last. Any failure after
mutation began leaves the destination header invalid (`none`). -/
def xfer (c : Crypto) (pu : Bool) (lay : FlashRegion) (img : Bytes)
    (m : ImageMetadata) (dst : RegionState) (f : Faults) (t : WTarget) :
    Option XferErr × RegionState × List FlashEv :=
  if fwCapacity lay < m.size then (some .outOfBounds, dst, [])
  else
    let nB := numBlocks lay
    let nC := numChunks img.length
    let eEvs := (List.range (eraseEvCount f nB)).map (FlashEv.eraseEv t)
    let c1 := eraseBlocks pu lay (eraseStopAt f nB) dst.content
    if eraseFaulted f nB = true then (some .eraseFailed, ⟨none, c1⟩, eEvs)
    else
      let wEvs := (List.range (writeEvCount f nC)).map (FlashEv.writeEv t)
      let c2 := writeChunks pu lay img (writeStopAt f nC) c1
      if writeFaulted f nC = true then (some .writeFailed, ⟨none, c2⟩, eEvs ++ wEvs)
      else
        let c3 := applyCorrupt f pu lay img.length c2
        if c.sha256 ((List.range m.size).map c3) = m.hash then
          if f.metaFail = true then
            (some .metaWriteFailed, ⟨none, c3⟩, eEvs ++ wEvs ++ [FlashEv.metaEv t])
          else (none, ⟨some m, c3⟩, eEvs ++ wEvs ++ [FlashEv.metaEv t])
        else (some .postHashMismatch, ⟨none, c3⟩, eEvs ++ wEvs)

/-- Modelled from the spec (§4.3): Backup Manager errors. -/
inductive BackupError where
  | sourceNotTrusted
  | eraseFailed
  | writeFailed
  | verifyAfterWriteFailed
deriving DecidableEq

/-- Map transfer failures onto the Backup Manager's error taxonomy. -/
def mapBkErr : XferErr → BackupError
  | .outOfBounds => .writeFailed
  | .eraseFailed => .eraseFailed
  | .writeFailed => .writeFailed
  | .postHashMismatch => .verifyAfterWriteFailed
  | .metaWriteFailed => .writeFailed

/-- Modelled from the spec (§4.3 Backup Manager): defensively re-verify
ACTIVE; never back up unverified firmware; then erase BACKUP, copy ACTIVE's
payload, check the post-copy hash, and write the metadata header (ACTIVE's
hash, signature and version, with a fresh `created_at` timestamp) last. -/
def create_backup (c : Crypto) (layA layB : FlashRegion)
    (active backup : RegionState) (ts : Nat) (f : Faults) :
    Option BackupError × RegionState × List FlashEv :=
  match active.meta with
  | none => (some .sourceNotTrusted, backup, [])
  | some am =>
    if verify c layA active = .Trusted then
      let out := xfer c false layB (regionPayload am active)
        { am with created_at := ts } backup f .backupR
      (out.1.map mapBkErr, out.2)
    else (some .sourceNotTrusted, backup, [])

/-- Modelled from the spec (§4.4): Restore Engine errors. -/
inductive RestoreError where
  | sourceNotTrusted
  | eraseFailed
  | writeFailed
  | postRestoreVerifyFailed
deriving DecidableEq

/-- Map transfer failures onto the Restore Engine's error taxonomy. -/
def mapRsErr : XferErr → RestoreError
  | .outOfBounds => .writeFailed
  | .eraseFailed => .eraseFailed
  | .writeFailed => .writeFailed
  | .postHashMismatch => .postRestoreVerifyFailed
  | .metaWriteFailed => .writeFailed

/-- Modelled from the spec (§4.4 Restore Engine): independently verify the
source immediately before restoring; mirror the Backup Manager's
erase-copy-verify-metadata sequence, preserving the destination's
designated user-data sub-region; on a post-copy verification failure the
destination's metadata is left invalidated. -/
def restore (c : Crypto) (laySrc layDst : FlashRegion)
    (src dst : RegionState) (f : Faults) (t : WTarget) :
    Option RestoreError × RegionState × List FlashEv :=
  match src.meta with
  | none => (some .sourceNotTrusted, dst, [])
  | some sm =>
    if verify c laySrc src = .Trusted then
      let out := xfer c true layDst (regionPayload sm src) sm dst f t
      (out.1.map mapRsErr, out.2)
    else (some .sourceNotTrusted, dst, [])

/-! ### Boot Decision State Machine (§4.5) -/

/-- Terminal states of one boot cycle: hand off to the firmware, or enter
Safe Mode. -/
inductive Terminal where
  | booting
  | safeMode
deriving DecidableEq

/-- The three region layouts of the flash address space. -/
structure Layouts where
  layA : FlashRegion
  layB : FlashRegion
  layF : FlashRegion

/-- The full flash state the state machine inspects. -/
structure FlashState where
  active : RegionState
  backup : RegionState
  factory : RegionState
  factoryPresent : Bool

/-- Fault schedules for the at most three flash-mutating operations one
boot cycle can attempt. -/
structure BootFaults where
  bk : Faults
  rb : Faults
  rf : Faults

/-- Modelled from the spec (§4.5 steps 4–5): the factory tier — restore
from FACTORY when it is present and verifies `Trusted`, booting on
success; otherwise (or on any failure) enter Safe Mode. -/
def tryFactory (c : Crypto) (L : Layouts) (st : FlashState) (bf : BootFaults)
    (evs0 : List FlashEv) : Terminal × FlashState × List FlashEv :=
  if st.factoryPresent = true ∧ verify c L.layF st.factory = .Trusted then
    let out := restore c L.layF L.layA st.factory st.active bf.rf .activeR
    let st' := { st with active := out.2.1 }
    match out.1 with
    | none =>
      if verify c L.layA out.2.1 = .Trusted then (.booting, st', evs0 ++ out.2.2)
      else (.safeMode, st', evs0 ++ out.2.2)
    | some _ => (.safeMode, st', evs0 ++ out.2.2)
  else (.safeMode, st, evs0)

/-- Modelled from the spec (§4.5 Boot Decision State Machine): priority
transition logic, first match wins — (1) ACTIVE and BACKUP both `Trusted`
boots normally; (2) ACTIVE `Trusted` alone creates a backup and boots
regardless of the backup's outcome; (3) BACKUP `Trusted` alone restores
from BACKUP, re-verifies ACTIVE and boots on success, else falls through;
(4) the factory tier; (5) Safe Mode. -/
def bootRun (c : Crypto) (L : Layouts) (st : FlashState) (ts : Nat)
    (bf : BootFaults) : Terminal × FlashState × List FlashEv :=
  if verify c L.layA st.active = .Trusted then
    if verify c L.layB st.backup = .Trusted then (.booting, st, [])
    else
      let out := create_backup c L.layA L.layB st.active st.backup ts bf.bk
      (.booting, { st with backup := out.2.1 }, out.2.2)
  else if verify c L.layB st.backup = .Trusted then
    let out := restore c L.layB L.layA st.backup st.active bf.rb .activeR
    let st' := { st with active := out.2.1 }
    match out.1 with
    | none =>
      if verify c L.layA out.2.1 = .Trusted then (.booting, st', out.2.2)
      else tryFactory c L st' bf out.2.2
    | some _ => tryFactory c L st' bf out.2.2
  else tryFactory c L st bf []

/-- Whether a flash command addresses the ACTIVE region. -/
def touchesActive : FlashEv → Bool
  | .eraseEv t _ => t == .activeR
  | .writeEv t _ => t == .activeR
  | .metaEv t => t == .activeR

/-! ### Platform interface surface (embedded from `src/firmware/src/platform.h`) -/

/-- C return kinds of the declared platform operations. -/
inductive CRet where
  | cvoid
  | cbool
  | cu32
deriving DecidableEq

/-- One declared platform operation: its C identifier and return kind. -/
structure CDecl where
  name : String
  ret : CRet
deriving DecidableEq

/-- The declarations of `src/firmware/src/platform.h`, in file order. -/
def platformDecls : List CDecl :=
  [⟨"platform_spi_init", .cbool⟩,
   ⟨"platform_spi_read", .cbool⟩,
   ⟨"platform_spi_write", .cbool⟩,
   ⟨"platform_spi_erase", .cbool⟩,
   ⟨"platform_spi_lock", .cbool⟩,
   ⟨"platform_spi_unlock", .cbool⟩,
   ⟨"platform_spi_get_size", .cu32⟩,
   ⟨"platform_usb_init", .cbool⟩,
   ⟨"platform_usb_is_present", .cbool⟩,
   ⟨"platform_usb_read_file", .cbool⟩,
   ⟨"platform_usb_write_file", .cbool⟩,
   ⟨"platform_usb_delete_file", .cbool⟩,
   ⟨"platform_usb_file_exists", .cbool⟩,
   ⟨"platform_usb_rename_file", .cbool⟩,
   ⟨"platform_boot_detection_init", .cvoid⟩,
   ⟨"platform_crypto_init", .cbool⟩,
   ⟨"platform_sha256", .cvoid⟩,
   ⟨"platform_sign", .cbool⟩,
   ⟨"platform_verify", .cbool⟩,
   ⟨"platform_get_timestamp", .cu32⟩,
   ⟨"system_reboot", .cvoid⟩,
   ⟨"src_enter_safe_mode", .cvoid⟩,
   ⟨"platform_authenticate", .cbool⟩,
   ⟨"platform_debug_log", .cvoid⟩,
   ⟨"platform_init", .cvoid⟩,
   ⟨"platform_delay_ms", .cvoid⟩]

/-- The declared operation identifiers, in file order. -/
def platformInterfaceNames : List String := platformDecls.map CDecl.name

/-- Names the spec's external-interfaces section (§6) lists for the flash
group: `init/read/write/erase/lock/unlock/get_size`. -/
def specFlashNames : List String :=
  ["platform_spi_init", "platform_spi_read", "platform_spi_write",
   "platform_spi_erase", "platform_spi_lock", "platform_spi_unlock",
   "platform_spi_get_size"]

/-- §6 crypto group: `init/sha256/sign/verify`. -/
def specCryptoNames : List String :=
  ["platform_crypto_init", "platform_sha256", "platform_sign", "platform_verify"]

/-- §6 boot-detection group: `init`. -/
def specBootDetectionNames : List String := ["platform_boot_detection_init"]

/-- §6 system group: `get_timestamp/reboot/delay_ms`, plus the platform
`enter_safe_mode` hard fallback, `authenticate`, `debug_log`, `platform_init`. -/
def specSystemNames : List String :=
  ["platform_get_timestamp", "system_reboot", "platform_delay_ms",
   "src_enter_safe_mode", "platform_authenticate", "platform_debug_log",
   "platform_init"]

/-- §6 USB mass-storage file operations. -/
def specUsbNames : List String :=
  ["platform_usb_init", "platform_usb_is_present", "platform_usb_read_file",
   "platform_usb_write_file", "platform_usb_delete_file",
   "platform_usb_file_exists", "platform_usb_rename_file"]

/-- All primitives the spec's external-interfaces section names. -/
def specConsumedNames : List String :=
  specFlashNames ++ specCryptoNames ++ specBootDetectionNames ++
    specSystemNames ++ specUsbNames

/-- Number of operations `platform.h` declares. -/
def declaredOperationCount : Nat := platformDecls.length

/-- Newline-terminated line count of `src/firmware/src/platform.h`. -/
def platformHeaderLineCount : Nat := 50

/-- Newline-terminated line count of the repository README. -/
def readmeLineCount : Nat := 90

/-- Total newline-terminated line count of the repository's two files. -/
def repositoryLineCount : Nat := platformHeaderLineCount + readmeLineCount

/-- Return kind of a declared platform operation, by identifier. -/
def declRet (n : String) : Option CRet :=
  (platformDecls.find? (fun d => d.name == n)).map CDecl.ret

/-! ### Concrete scenarios used to evaluate the development -/

/-- An empty (fully erased) region: no metadata header. -/
def regEmpty : RegionState := ⟨none, fun _ => erasedByte⟩

/-- A region with no header and arbitrary stale bytes. -/
def regZero : RegionState := ⟨none, fun _ => 0⟩

/-- Concrete layout reserving a user-data sub-region at offsets 4..7. -/
def lay1 : FlashRegion := ⟨0, 8, 4, 4, 4⟩

/-- A region holding recognisable user bytes and no header. -/
def regUser : RegionState := ⟨none, fun i => i % 7⟩

/-- Fault schedule whose only failure is the final metadata write. -/
def mfFault : Faults := ⟨none, none, none, true⟩

/-- Concrete layouts bundle: all three regions use `lay0`. -/
def L0 : Layouts := ⟨lay0, lay0, lay0⟩

/-- Flash state in which ACTIVE, BACKUP and FACTORY are all empty. -/
def stAllBad : FlashState := ⟨regEmpty, regEmpty, regEmpty, true⟩

/-- Fault-free schedules for all boot-cycle operations. -/
def bf0 : BootFaults := ⟨noFaults, noFaults, noFaults⟩

lemma list_set_getD (l : List Nat) (i b : Nat) (h : i < l.length) :
    (l.set i b).getD i 0 = b := by
  induction l generalizing i with
  | nil => simp at h
  | cons x xs ih =>
    cases i with
    | zero => simp [List.set]
    | succ j =>
      simp only [List.set, List.getD_cons_succ]
      exact ih j (by simpa using h)

lemma verify_none (c : Crypto) (lay : FlashRegion) (r : RegionState)
    (h : r.meta = none) : verify c lay r = .RegionEmpty := by
  rw [verify, h]

lemma verify_trusted_parts (c : Crypto) (lay : FlashRegion) (r : RegionState)
    (m : ImageMetadata) (hm : r.meta = some m) (h : verify c lay r = .Trusted) :
    metaSane lay m = true ∧ c.sha256 (regionPayload m r) = m.hash ∧
      c.verifySig m.hash m.signature = true := by
  rw [verify, hm] at h
  by_cases h1 : metaSane lay m = true
  · by_cases h2 : c.sha256 (regionPayload m r) = m.hash
    · by_cases h3 : c.verifySig m.hash m.signature = true
      · exact ⟨h1, h2, h3⟩
      · simp [h1, h2, h3] at h
    · simp [h1, h2] at h
  · simp [h1] at h

lemma eraseFaulted_noFaults (n : Nat) : eraseFaulted noFaults n = false := rfl

lemma writeFaulted_noFaults (n : Nat) : writeFaulted noFaults n = false := rfl

lemma eraseStopAt_noFaults (n : Nat) : eraseStopAt noFaults n = n := rfl

lemma writeStopAt_noFaults (n : Nat) : writeStopAt noFaults n = n := rfl

lemma eraseEvCount_noFaults (n : Nat) : eraseEvCount noFaults n = n := rfl

lemma writeEvCount_noFaults (n : Nat) : writeEvCount noFaults n = n := rfl

lemma applyCorrupt_noFaults (pu : Bool) (lay : FlashRegion) (len : Nat)
    (cnt : Content) : applyCorrupt noFaults pu lay len cnt = cnt := rfl

lemma metaFail_noFaults : noFaults.metaFail = false := rfl

lemma eraseBlocks_apply (pu : Bool) (lay : FlashRegion) :
    ∀ (k : Nat) (cnt : Content) (i : Nat),
      eraseBlocks pu lay k cnt i =
        if i < k * lay.erase_block_size ∧ (pu && inUser lay i) = false then erasedByte
        else cnt i := by
  intro k
  induction k with
  | zero =>
    intro cnt i
    simp [eraseBlocks]
  | succ k ih =>
    intro cnt i
    have hE : (k + 1) * lay.erase_block_size
        = k * lay.erase_block_size + lay.erase_block_size := Nat.succ_mul _ _
    by_cases hok : (pu && inUser lay i) = false
    · simp only [eraseBlocks, eraseBlockOp, ih, hok, eq_self_iff_true, and_true]
      rw [hE]
      by_cases h1 : k * lay.erase_block_size ≤ i
      · by_cases h2 : i < k * lay.erase_block_size + lay.erase_block_size
        · rw [if_pos ⟨h1, h2⟩, if_pos h2]
        · have h3 : ¬ i < k * lay.erase_block_size :=
            fun h => h2 (lt_of_lt_of_le h (Nat.le_add_right _ _))
          rw [if_neg (fun h => h2 h.2), if_neg h3, if_neg h2]
      · have h3 : i < k * lay.erase_block_size := Nat.lt_of_not_le h1
        rw [if_neg (fun h => h1 h.1), if_pos h3,
          if_pos (lt_of_lt_of_le h3 (Nat.le_add_right _ _))]
    · have hok2 : (pu && inUser lay i) = true := by
        revert hok; cases pu && inUser lay i <;> simp
      simp only [eraseBlocks, eraseBlockOp, ih, hok2]
      rw [if_neg (fun h => Bool.noConfusion h.2.2),
        if_neg (fun h => Bool.noConfusion h.2),
        if_neg (fun h => Bool.noConfusion h.2)]

lemma writeChunks_apply (pu : Bool) (lay : FlashRegion) (img : Bytes) :
    ∀ (j : Nat) (cnt : Content) (i : Nat),
      writeChunks pu lay img j cnt i =
        if i < j * chunkSz ∧ i < img.length ∧ (pu && inUser lay i) = false then
          img.getD i erasedByte
        else cnt i := by
  intro j
  induction j with
  | zero =>
    intro cnt i
    simp [writeChunks]
  | succ j ih =>
    intro cnt i
    have hE : (j + 1) * chunkSz = j * chunkSz + chunkSz := Nat.succ_mul _ _
    by_cases hok : (pu && inUser lay i) = false
    · by_cases hlen : i < img.length
      · simp only [writeChunks, writeChunkOp, ih, hok, hlen, eq_self_iff_true,
          and_true, true_and]
        rw [hE]
        by_cases h1 : j * chunkSz ≤ i
        · by_cases h2 : i < j * chunkSz + chunkSz
          · rw [if_pos ⟨h1, h2⟩, if_pos h2]
          · have h3 : ¬ i < j * chunkSz :=
              fun h => h2 (lt_of_lt_of_le h (Nat.le_add_right _ _))
            rw [if_neg (fun h => h2 h.2), if_neg h3, if_neg h2]
        · have h3 : i < j * chunkSz := Nat.lt_of_not_le h1
          rw [if_neg (fun h => h1 h.1), if_pos h3,
            if_pos (lt_of_lt_of_le h3 (Nat.le_add_right _ _))]
      · simp only [writeChunks, writeChunkOp, ih]
        rw [if_neg (fun h => hlen h.2.2.1), if_neg (fun h => hlen h.2.1),
          if_neg (fun h => hlen h.2.1)]
    · have hok2 : (pu && inUser lay i) = true := by
        revert hok; cases pu && inUser lay i <;> simp
      simp only [writeChunks, writeChunkOp, ih, hok2]
      rw [if_neg (fun h => Bool.noConfusion h.2.2.2),
        if_neg (fun h => Bool.noConfusion h.2.2),
        if_neg (fun h => Bool.noConfusion h.2.2)]

lemma inUser_false_of_lt_fwCapacity (lay : FlashRegion) (i : Nat)
    (h : i < fwCapacity lay) : inUser lay i = false := by
  rw [fwCapacity] at h
  rw [inUser]
  by_cases h0 : lay.user_len = 0
  · rw [if_pos h0] at h
    rw [h0]
    by_cases h1 : lay.user_ofs ≤ i
    · have h2 : ¬ i < lay.user_ofs + 0 := by omega
      simp [h2]
    · simp [h1]
  · rw [if_neg h0] at h
    have h1 : i < lay.user_ofs := lt_of_lt_of_le h (min_le_left _ _)
    have h2 : ¬ lay.user_ofs ≤ i := by omega
    simp [h2]

lemma le_numChunks_mul (n : Nat) : n ≤ numChunks n * chunkSz := by
  simp only [numChunks, chunkSz]
  have h := Nat.div_add_mod (n + 256 - 1) 256
  have h2 : (n + 256 - 1) % 256 < 256 := Nat.mod_lt _ (by norm_num)
  omega

lemma encodeBytes_injective :
    ∀ (xs ys : Bytes), encodeBytes xs = encodeBytes ys → xs = ys := by
  intro xs
  induction xs with
  | nil =>
    intro ys h
    cases ys with
    | nil => rfl
    | cons y ys => simp only [encodeBytes] at h; omega
  | cons x xs ih =>
    intro ys h
    cases ys with
    | nil => simp only [encodeBytes] at h; omega
    | cons y ys =>
      simp only [encodeBytes] at h
      have h2 : Nat.pair x (encodeBytes xs) = Nat.pair y (encodeBytes ys) := by omega
      obtain ⟨ha, hb⟩ := Nat.pair_eq_pair.mp h2
      rw [ha, ih ys hb]

lemma erase_no_fault (f : Faults) (n : Nat) (h : eraseFaulted f n = false) :
    eraseStopAt f n = n ∧ eraseEvCount f n = n := by
  rw [eraseFaulted] at h
  rw [eraseStopAt, eraseEvCount]
  cases hf : f.eraseFail with
  | none => exact ⟨rfl, rfl⟩
  | some k =>
    rw [hf] at h
    simp only [decide_eq_false_iff_not, Nat.not_lt] at h
    exact ⟨Nat.min_eq_right h, Nat.min_eq_right (by omega)⟩

lemma write_no_fault (f : Faults) (n : Nat) (h : writeFaulted f n = false) :
    writeStopAt f n = n ∧ writeEvCount f n = n := by
  rw [writeFaulted] at h
  rw [writeStopAt, writeEvCount]
  cases hf : f.writeFail with
  | none => exact ⟨rfl, rfl⟩
  | some j =>
    rw [hf] at h
    simp only [decide_eq_false_iff_not, Nat.not_lt] at h
    exact ⟨Nat.min_eq_right h, Nat.min_eq_right (by omega)⟩

lemma xfer_success_parts (c : Crypto) (pu : Bool) (lay : FlashRegion)
    (img : Bytes) (m : ImageMetadata) (dst : RegionState) (f : Faults)
    (t : WTarget) (h : (xfer c pu lay img m dst f t).1 = none) :
    m.size ≤ fwCapacity lay
    ∧ (xfer c pu lay img m dst f t).2.1 =
        ⟨some m, applyCorrupt f pu lay img.length
          (writeChunks pu lay img (numChunks img.length)
            (eraseBlocks pu lay (numBlocks lay) dst.content))⟩
    ∧ c.sha256 ((List.range m.size).map
        (applyCorrupt f pu lay img.length
          (writeChunks pu lay img (numChunks img.length)
            (eraseBlocks pu lay (numBlocks lay) dst.content)))) = m.hash
    ∧ (xfer c pu lay img m dst f t).2.2 =
        (List.range (numBlocks lay)).map (FlashEv.eraseEv t) ++
          (List.range (numChunks img.length)).map (FlashEv.writeEv t) ++
            [FlashEv.metaEv t] := by
  simp only [xfer] at h ⊢
  split_ifs at h ⊢ with h1 h2 h3 h4 h5 <;> try simp at h
  rw [Bool.not_eq_true] at h2 h3
  obtain ⟨hs1, hs2⟩ := erase_no_fault f (numBlocks lay) h2
  obtain ⟨hw1, hw2⟩ := write_no_fault f (numChunks img.length) h3
  rw [hs1, hw1] at h4
  rw [hs1, hs2, hw1, hw2]
  exact ⟨Nat.le_of_not_lt h1, rfl, h4, rfl⟩

lemma xfer_events_shape (c : Crypto) (pu : Bool) (lay : FlashRegion)
    (img : Bytes) (m : ImageMetadata) (dst : RegionState) (f : Faults)
    (t : WTarget) :
    ∃ pre, (∀ e ∈ pre, e ≠ FlashEv.metaEv t) ∧
      ((xfer c pu lay img m dst f t).2.2 = pre ∨
       (xfer c pu lay img m dst f t).2.2 = pre ++ [FlashEv.metaEv t]) := by
  have herase : ∀ n, ∀ e ∈ (List.range n).map (FlashEv.eraseEv t),
      e ≠ FlashEv.metaEv t := by
    intro n e he
    rcases List.mem_map.mp he with ⟨k, _, rfl⟩
    exact fun hc => FlashEv.noConfusion hc
  have hwrite : ∀ n, ∀ e ∈ (List.range n).map (FlashEv.writeEv t),
      e ≠ FlashEv.metaEv t := by
    intro n e he
    rcases List.mem_map.mp he with ⟨k, _, rfl⟩
    exact fun hc => FlashEv.noConfusion hc
  have happ : ∀ nB nC, ∀ e ∈ (List.range nB).map (FlashEv.eraseEv t) ++
      (List.range nC).map (FlashEv.writeEv t), e ≠ FlashEv.metaEv t := by
    intro nB nC e he
    rcases List.mem_append.mp he with hl | hl
    · exact herase _ e hl
    · exact hwrite _ e hl
  simp only [xfer]
  split_ifs with h1 h2 h3 h4 h5
  · exact ⟨[], by simp, Or.inl rfl⟩
  · exact ⟨_, herase _, Or.inl rfl⟩
  · exact ⟨_, happ _ _, Or.inl rfl⟩
  · exact ⟨_, happ _ _, Or.inr rfl⟩
  · exact ⟨_, happ _ _, Or.inr rfl⟩
  · exact ⟨_, happ _ _, Or.inl rfl⟩

lemma xfer_fail_meta_none (c : Crypto) (pu : Bool) (lay : FlashRegion)
    (img : Bytes) (m : ImageMetadata) (dst : RegionState) (f : Faults)
    (t : WTarget) (err : XferErr)
    (h : (xfer c pu lay img m dst f t).1 = some err)
    (hev : (xfer c pu lay img m dst f t).2.2 ≠ []) :
    (xfer c pu lay img m dst f t).2.1.meta = none := by
  simp only [xfer] at h hev ⊢
  split_ifs at h hev ⊢ with h1 h2 h3 h4 h5 <;>
    first
      | rfl
      | exact absurd rfl hev
      | exact absurd h (by simp)

lemma xfer_noFaults (c : Crypto) (pu : Bool) (lay : FlashRegion) (img : Bytes)
    (m : ImageMetadata) (dst : RegionState) (t : WTarget)
    (hb : m.size ≤ fwCapacity lay)
    (hh : c.sha256 ((List.range m.size).map
      (writeChunks pu lay img (numChunks img.length)
        (eraseBlocks pu lay (numBlocks lay) dst.content))) = m.hash) :
    xfer c pu lay img m dst noFaults t =
      (none,
       ⟨some m, writeChunks pu lay img (numChunks img.length)
         (eraseBlocks pu lay (numBlocks lay) dst.content)⟩,
       (List.range (numBlocks lay)).map (FlashEv.eraseEv t) ++
         (List.range (numChunks img.length)).map (FlashEv.writeEv t) ++
           [FlashEv.metaEv t]) := by
  simp only [xfer, eraseFaulted_noFaults, writeFaulted_noFaults,
    eraseStopAt_noFaults, writeStopAt_noFaults, eraseEvCount_noFaults,
    writeEvCount_noFaults, applyCorrupt_noFaults, metaFail_noFaults]
  rw [if_neg (Nat.not_lt_of_le hb)]
  rw [if_neg (fun hc => Bool.noConfusion hc), if_neg (fun hc => Bool.noConfusion hc)]
  rw [if_pos hh, if_neg (fun hc => Bool.noConfusion hc)]

/-- C1: for a region whose stored metadata passes the structural sanity
check, `verify` returns `Trusted` iff the recomputed SHA-256 of the payload
equals the stored hash and the stored signature validates over that hash;
flipping a payload byte (when the hash primitive separates the two
payloads), flipping a stored-hash byte, or flipping a stored-signature byte
(when the verification primitive rejects the altered signature) each turn
the result non-`Trusted`; no partial-success path yields `Trusted`. -/
theorem verify_trusted_iff_and_flip (c : Crypto) (lay : FlashRegion)
    (r : RegionState) (m : ImageMetadata) (hm : r.meta = some m)
    (hsane : metaSane lay m = true) :
    (verify c lay r = .Trusted ↔
      (c.sha256 (regionPayload m r) = m.hash ∧
        c.verifySig m.hash m.signature = true))
    ∧ (∀ i b, i < m.size → r.content i ≠ b →
        c.sha256 (regionPayload m (setByte r i b)) ≠ c.sha256 (regionPayload m r) →
        verify c lay r = .Trusted →
        verify c lay (setByte r i b) ≠ .Trusted)
    ∧ (∀ i b, i < m.hash.length → m.hash.getD i 0 ≠ b →
        verify c lay r = .Trusted →
        verify c lay { r with meta := some { m with hash := m.hash.set i b } } ≠ .Trusted)
    ∧ (∀ i b, c.verifySig m.hash (m.signature.set i b) = false →
        verify c lay r = .Trusted →
        verify c lay { r with meta := some { m with signature := m.signature.set i b } }
          ≠ .Trusted) := by
  have hver : verify c lay r =
      (if c.sha256 (regionPayload m r) = m.hash then
        if c.verifySig m.hash m.signature = true then VerificationResult.Trusted
        else .SignatureMismatch
      else .HashMismatch) := by
    rw [verify, hm]
    simp [hsane]
  refine ⟨?_, ?_, ?_, ?_⟩
  · rw [hver]
    by_cases h1 : c.sha256 (regionPayload m r) = m.hash
    · by_cases h2 : c.verifySig m.hash m.signature = true
      · simp [h1, h2]
      · simp [h1, h2]
    · simp [h1]
  · intro i b _ _ hflip htr
    have h1 : c.sha256 (regionPayload m r) = m.hash := by
      rw [hver] at htr
      by_cases h1 : c.sha256 (regionPayload m r) = m.hash
      · exact h1
      · simp [h1] at htr
    have hpay : regionPayload m (setByte r i b) =
        (List.range m.size).map (setByte r i b).content := rfl
    have hne : c.sha256 (regionPayload m (setByte r i b)) ≠ m.hash := by
      rw [← h1]; exact hflip
    rw [verify]
    have hm2 : (setByte r i b).meta = some m := hm
    rw [hm2]
    simp [hsane, hne]
  · intro i b hi hne htr
    have h1 : c.sha256 (regionPayload m r) = m.hash := by
      rw [hver] at htr
      by_cases h1 : c.sha256 (regionPayload m r) = m.hash
      · exact h1
      · simp [h1] at htr
    set m' : ImageMetadata := { m with hash := m.hash.set i b } with hm'
    have hsane' : metaSane lay m' = true := by
      have hlen : m'.hash.length = m.hash.length := by
        simp [hm', List.length_set]
      rw [metaSane] at hsane ⊢
      simp only [hm'] at *
      simpa [List.length_set] using hsane
    have hpay' : regionPayload m' { r with meta := some m' } =
        regionPayload m r := by
      simp [regionPayload, hm']
    have hhash_ne : m.hash ≠ m.hash.set i b := by
      intro heq
      have := list_set_getD m.hash i b hi
      rw [← heq] at this
      exact hne this
    have hcmp : c.sha256 (regionPayload m' { r with meta := some m' }) ≠ m'.hash := by
      rw [hpay', h1]
      simpa [hm'] using hhash_ne
    rw [verify]
    simp only []
    simp [hsane', hcmp]
  · intro i b hsig htr
    have h1 : c.sha256 (regionPayload m r) = m.hash := by
      rw [hver] at htr
      by_cases h1 : c.sha256 (regionPayload m r) = m.hash
      · exact h1
      · simp [h1] at htr
    set m' : ImageMetadata := { m with signature := m.signature.set i b } with hm'
    have hsane' : metaSane lay m' = true := by
      rw [metaSane] at hsane ⊢
      simpa [hm'] using hsane
    have hpay' : regionPayload m' { r with meta := some m' } =
        regionPayload m r := by
      simp [regionPayload, hm']
    have hh : c.sha256 (regionPayload m' { r with meta := some m' }) = m'.hash := by
      rw [hpay', h1]
    rw [verify]
    simp [hsane', hh, hm', hsig]

/-- C1 witness: the biconditional and all three single-byte tamper cases
evaluated at a concrete trusted region under the toy crypto. -/
theorem verify_trusted_iff_and_flip_witness :
    verify toyCrypto lay0 reg0 = .Trusted
    ∧ verify toyCrypto lay0 (setByte reg0 0 9) ≠ .Trusted
    ∧ verify toyCrypto lay0
        { reg0 with meta := some { meta0 with hash := meta0.hash.set 0 7 } } ≠ .Trusted
    ∧ verify toyCrypto lay0
        { reg0 with meta := some { meta0 with signature := meta0.signature.set 0 7 } }
          ≠ .Trusted := by
  have h := verify_trusted_iff_and_flip toyCrypto lay0 reg0 meta0 rfl (by decide)
  obtain ⟨h1, h2, h3, h4⟩ := h
  have htr : verify toyCrypto lay0 reg0 = .Trusted := h1.mpr (by decide)
  refine ⟨htr, ?_, ?_, ?_⟩
  · exact h2 0 9 (by decide) (by decide) (by decide) htr
  · exact h3 0 7 (by decide) (by decide) htr
  · exact h4 0 7 (by decide) htr

/-- C7: `translate` fails with `OutOfBounds` exactly when the accessed
range exceeds the region (`offset + len > region.size`); otherwise it
returns the absolute flash offset inside the region's descriptor. -/
theorem translate_spec (r : FlashRegion) (offset len : Nat) :
    (translate r offset len = .error .OutOfBounds ↔ r.size < offset + len)
    ∧ (offset + len ≤ r.size → translate r offset len = .ok (r.base_offset + offset)) := by
  constructor
  · constructor
    · intro h
      by_contra hc
      push_neg at hc
      rw [translate, if_neg (by omega)] at h
      exact Except.noConfusion h
    · intro h
      rw [translate, if_pos h]
  · intro h
    rw [translate, if_neg (by omega)]

/-- C7 witness: concrete in-bounds and out-of-bounds translations. -/
theorem translate_spec_witness :
    translate lay0 2 4 = .ok 2 ∧ translate lay0 6 4 = .error .OutOfBounds := by
  have h1 := (translate_spec lay0 2 4).2 (by decide)
  have h2 := (translate_spec lay0 6 4).1.mpr (by decide)
  exact ⟨by simpa [lay0] using h1, h2⟩

lemma backup_content_stable (lay : FlashRegion) (img : Bytes) (cnt : Content)
    (i : Nat) :
    writeChunks false lay img (numChunks img.length)
      (eraseBlocks false lay (numBlocks lay)
        (writeChunks false lay img (numChunks img.length)
          (eraseBlocks false lay (numBlocks lay) cnt))) i
    = writeChunks false lay img (numChunks img.length)
        (eraseBlocks false lay (numBlocks lay) cnt) i := by
  have hw := writeChunks_apply false lay img
  have he := eraseBlocks_apply false lay
  by_cases hi : i < img.length
  · have hcov : i < numChunks img.length * chunkSz :=
      lt_of_lt_of_le hi (le_numChunks_mul _)
    rw [hw, hw, if_pos ⟨hcov, hi, Bool.false_and _⟩,
      if_pos ⟨hcov, hi, Bool.false_and _⟩]
  · rw [hw, hw, if_neg (fun h => hi h.2.1), if_neg (fun h => hi h.2.1)]
    rw [he, he]
    by_cases hb : i < numBlocks lay * lay.erase_block_size
    · rw [if_pos ⟨hb, Bool.false_and _⟩, if_pos ⟨hb, Bool.false_and _⟩]
    · rw [if_neg (fun h => hb h.1), if_neg (fun h => hb h.1)]
      rw [hw, if_neg (fun h => hi h.2.1), he, if_neg (fun h => hb h.1)]

lemma xfer_preserves_user (c : Crypto) (lay : FlashRegion) (img : Bytes)
    (m : ImageMetadata) (dst : RegionState) (f : Faults) (t : WTarget)
    (i : Nat) (hu : inUser lay i = true) :
    (xfer c true lay img m dst f t).2.1.content i = dst.content i := by
  have hfx : ¬ ((true && inUser lay i) = false) := by simp [hu]
  have he : ∀ k cnt, eraseBlocks true lay k cnt i = cnt i := by
    intro k cnt
    rw [eraseBlocks_apply]
    exact if_neg (fun h => hfx h.2)
  have hw : ∀ j cnt, writeChunks true lay img j cnt i = cnt i := by
    intro j cnt
    rw [writeChunks_apply]
    exact if_neg (fun h => hfx h.2.2)
  have hc : ∀ len cnt, applyCorrupt f true lay len cnt i = cnt i := by
    intro len cnt
    cases hcv : f.corrupt with
    | none => rw [applyCorrupt, hcv]
    | some kv =>
      rw [applyCorrupt, hcv]
      exact if_neg (fun h => hfx h.2.2)
  simp only [xfer]
  split_ifs with h1 h2 h3 h4 h5
  · rfl
  · exact he _ _
  · exact (hw _ _).trans (he _ _)
  · exact (hc _ _).trans ((hw _ _).trans (he _ _))
  · exact (hc _ _).trans ((hw _ _).trans (he _ _))
  · exact (hc _ _).trans ((hw _ _).trans (he _ _))

/-- C2: whenever ACTIVE, BACKUP and FACTORY all fail verification, every
execution of the boot decision state machine (under every fault schedule)
terminates in Safe Mode, emits no flash command at all — in particular no
flash write to the ACTIVE region is ever attempted — and leaves the flash
state untouched. -/
theorem bootRun_all_fail_safeMode (c : Crypto) (L : Layouts) (st : FlashState)
    (ts : Nat) (bf : BootFaults)
    (ha : verify c L.layA st.active ≠ .Trusted)
    (hb : verify c L.layB st.backup ≠ .Trusted)
    (hf : verify c L.layF st.factory ≠ .Trusted) :
    (bootRun c L st ts bf).1 = .safeMode
    ∧ (bootRun c L st ts bf).2.2 = []
    ∧ (∀ e ∈ (bootRun c L st ts bf).2.2, touchesActive e = false)
    ∧ (bootRun c L st ts bf).2.1 = st := by
  have h1 : bootRun c L st ts bf = tryFactory c L st bf [] := by
    rw [bootRun, if_neg ha, if_neg hb]
  have h2 : tryFactory c L st bf [] = (.safeMode, st, []) := by
    rw [tryFactory, if_neg (fun h => hf h.2)]
  rw [h1, h2]
  refine ⟨rfl, rfl, ?_, rfl⟩
  intro e he
  exact absurd he (List.not_mem_nil e)

/-- C2 witness: all three regions empty — Safe Mode, no flash commands. -/
theorem bootRun_all_fail_safeMode_witness :
    (bootRun toyCrypto L0 stAllBad 0 bf0).1 = .safeMode
    ∧ (bootRun toyCrypto L0 stAllBad 0 bf0).2.2 = [] := by
  have h := bootRun_all_fail_safeMode toyCrypto L0 stAllBad 0 bf0
    (by decide) (by decide) (by decide)
  exact ⟨h.1, h.2.1⟩

/-- C5: after any restore invocation — from any source, under any fault
schedule, whether it succeeds or fails — every byte of the destination's
designated user-data sub-region is unchanged: the sub-region is excluded
from the erase and copy range and no restore step writes to it. -/
theorem restore_preserves_user_data (c : Crypto) (laySrc layDst : FlashRegion)
    (src dst : RegionState) (f : Faults) (t : WTarget) (i : Nat)
    (hu : inUser layDst i = true) :
    (restore c laySrc layDst src dst f t).2.1.content i = dst.content i := by
  rcases hsm : src.meta with _ | sm
  · simp [restore, hsm]
  · by_cases hv : verify c laySrc src = .Trusted
    · simp only [restore, hsm, if_pos hv]
      exact xfer_preserves_user c layDst (regionPayload sm src) sm dst f t i hu
    · simp [restore, hsm, hv]

/-- C5 witness: under a layout reserving offsets 4..7 as user data, a
fault-free restore of a 4-byte image leaves user byte 5 unchanged. -/
theorem restore_preserves_user_data_witness :
    (restore toyCrypto lay0 lay1 reg0 regUser noFaults .activeR).2.1.content 5
      = regUser.content 5 := by
  exact restore_preserves_user_data toyCrypto lay0 lay1 reg0 regUser noFaults
    .activeR 5 (by decide)

/-- C4: if ACTIVE does not verify `Trusted`, the source region does (with
the hash primitive binding the stored hash to the source's payload, the
idealisation §3 states as the `hash` invariant), and the restore returns
success, then afterwards the destination verifies `Trusted` and its
payload equals the source's payload. -/
theorem restore_roundtrip (c : Crypto) (laySrc layDst : FlashRegion)
    (src dst : RegionState) (sm : ImageMetadata) (f : Faults) (t : WTarget)
    (hsm : src.meta = some sm)
    (hdst : verify c layDst dst ≠ .Trusted)
    (hsrc : verify c laySrc src = .Trusted)
    (hbind : ∀ bs : Bytes, bs.length = sm.size → c.sha256 bs = sm.hash →
      bs = regionPayload sm src)
    (hok : (restore c laySrc layDst src dst f t).1 = none) :
    verify c layDst (restore c laySrc layDst src dst f t).2.1 = .Trusted
    ∧ regionPayload sm (restore c laySrc layDst src dst f t).2.1
        = regionPayload sm src := by
  have hres : restore c laySrc layDst src dst f t =
      ((xfer c true layDst (regionPayload sm src) sm dst f t).1.map mapRsErr,
       (xfer c true layDst (regionPayload sm src) sm dst f t).2) := by
    simp only [restore, hsm, if_pos hsrc]
  rw [hres] at hok ⊢
  have hx : (xfer c true layDst (regionPayload sm src) sm dst f t).1 = none :=
    Option.map_eq_none'.mp hok
  obtain ⟨hcap, hr, hh, -⟩ :=
    xfer_success_parts c true layDst (regionPayload sm src) sm dst f t hx
  obtain ⟨hs1, hs2, hs3⟩ := verify_trusted_parts c laySrc src sm hsm hsrc
  have hpay : regionPayload sm
      (xfer c true layDst (regionPayload sm src) sm dst f t).2.1
      = regionPayload sm src := by
    rw [hr]
    refine hbind _ ?_ hh
    simp [regionPayload]
  refine ⟨?_, hpay⟩
  have hsane2 : metaSane layDst sm = true := by
    rw [metaSane] at hs1 ⊢
    simp only [Bool.and_eq_true, decide_eq_true_eq] at hs1 ⊢
    exact ⟨⟨⟨hs1.1.1.1, hs1.1.1.2⟩, hs1.1.2⟩, hcap⟩
  have hmeta : (xfer c true layDst (regionPayload sm src) sm dst f t).2.1.meta
      = some sm := by rw [hr]
  have hh2 : c.sha256 (regionPayload sm
      (xfer c true layDst (regionPayload sm src) sm dst f t).2.1) = sm.hash := by
    rw [hpay, hs2]
  rw [verify, hmeta]
  simp [hsane2, hh2, hs3]

/-- C4 witness: fault-free restore of the concrete trusted region into an
empty ACTIVE yields a `Trusted` ACTIVE with the source's payload; the
hash-binding hypothesis holds because the toy digest is injective. -/
theorem restore_roundtrip_witness :
    verify toyCrypto lay0
      (restore toyCrypto lay0 lay0 reg0 regZero noFaults .activeR).2.1 = .Trusted
    ∧ regionPayload meta0
        (restore toyCrypto lay0 lay0 reg0 regZero noFaults .activeR).2.1
      = regionPayload meta0 reg0 := by
  have hbind : ∀ bs : Bytes, bs.length = meta0.size →
      toyCrypto.sha256 bs = meta0.hash → bs = regionPayload meta0 reg0 := by
    intro bs _ h
    have h' : toySha bs = toySha [1, 2, 3, 4] := h
    have h1 : encodeBytes bs = encodeBytes [1, 2, 3, 4] := by
      simpa [toySha] using h'
    have h2 : bs = [1, 2, 3, 4] := encodeBytes_injective bs _ h1
    rw [h2]
    decide
  exact restore_roundtrip toyCrypto lay0 lay0 reg0 regZero meta0 noFaults
    .activeR rfl (by decide) (by decide) hbind (by decide)

/-- C3 counterexample: both fault-free `create_backup` calls succeed with
ACTIVE trusted and unchanged, but the platform timestamp advances from 0
to 1 between them, so the stored metadata headers differ (`created_at`) —
the BACKUP region is not byte-identical after the second call. -/
theorem create_backup_not_byte_identical_cex :
    verify toyCrypto lay0 reg0 = .Trusted
    ∧ (create_backup toyCrypto lay0 lay0 reg0 regEmpty 0 noFaults).1 = none
    ∧ (create_backup toyCrypto lay0 lay0 reg0
        (create_backup toyCrypto lay0 lay0 reg0 regEmpty 0 noFaults).2.1
        1 noFaults).1 = none
    ∧ (create_backup toyCrypto lay0 lay0 reg0
        (create_backup toyCrypto lay0 lay0 reg0 regEmpty 0 noFaults).2.1
        1 noFaults).2.1.meta
      ≠ (create_backup toyCrypto lay0 lay0 reg0 regEmpty 0 noFaults).2.1.meta := by
  refine ⟨by decide, by decide, by decide, by decide⟩

/-- C3 (amended): with ACTIVE unchanged and the platform timestamp
unchanged, a second fault-free `create_backup` succeeds again and leaves
the BACKUP region byte-identical — same metadata header and the same
stored byte at every offset. (The stored `created_at` field records the
platform timestamp, so byte-identity requires the timestamp not to have
advanced; with a fresh timestamp only `created_at` differs.) -/
theorem create_backup_idempotent_same_timestamp (c : Crypto)
    (layA layB : FlashRegion) (active backup : RegionState) (ts : Nat)
    (h1 : (create_backup c layA layB active backup ts noFaults).1 = none) :
    (create_backup c layA layB active
        (create_backup c layA layB active backup ts noFaults).2.1
        ts noFaults).1 = none
    ∧ (create_backup c layA layB active
        (create_backup c layA layB active backup ts noFaults).2.1
        ts noFaults).2.1.meta
      = (create_backup c layA layB active backup ts noFaults).2.1.meta
    ∧ ∀ i,
      (create_backup c layA layB active
          (create_backup c layA layB active backup ts noFaults).2.1
          ts noFaults).2.1.content i
        = (create_backup c layA layB active backup ts noFaults).2.1.content i := by
  rcases ham : active.meta with _ | am
  · simp [create_backup, ham] at h1
  · by_cases hv : verify c layA active = .Trusted
    · have hx1 : (xfer c false layB (regionPayload am active)
          { am with created_at := ts } backup noFaults .backupR).1 = none := by
        rw [← Option.map_eq_none' (f := mapBkErr)]
        simpa [create_backup, ham, hv] using h1
      obtain ⟨hb, hr1, hh1, -⟩ := xfer_success_parts c false layB
        (regionPayload am active) { am with created_at := ts } backup noFaults
        .backupR hx1
      rw [applyCorrupt_noFaults] at hr1 hh1
      have hxf1 := xfer_noFaults c false layB (regionPayload am active)
        { am with created_at := ts } backup .backupR hb hh1
      have hcb1 : create_backup c layA layB active backup ts noFaults =
          (none,
           ⟨some { am with created_at := ts },
            writeChunks false layB (regionPayload am active)
              (numChunks (regionPayload am active).length)
              (eraseBlocks false layB (numBlocks layB) backup.content)⟩,
           (List.range (numBlocks layB)).map (FlashEv.eraseEv .backupR) ++
             (List.range (numChunks (regionPayload am active).length)).map
               (FlashEv.writeEv .backupR) ++ [FlashEv.metaEv .backupR]) := by
        simp [create_backup, ham, hv, hxf1]
      have hstab : ∀ i,
          writeChunks false layB (regionPayload am active)
            (numChunks (regionPayload am active).length)
            (eraseBlocks false layB (numBlocks layB)
              (writeChunks false layB (regionPayload am active)
                (numChunks (regionPayload am active).length)
                (eraseBlocks false layB (numBlocks layB) backup.content))) i
          = writeChunks false layB (regionPayload am active)
              (numChunks (regionPayload am active).length)
              (eraseBlocks false layB (numBlocks layB) backup.content) i :=
        backup_content_stable layB (regionPayload am active) backup.content
      have hfun : writeChunks false layB (regionPayload am active)
            (numChunks (regionPayload am active).length)
            (eraseBlocks false layB (numBlocks layB)
              (writeChunks false layB (regionPayload am active)
                (numChunks (regionPayload am active).length)
                (eraseBlocks false layB (numBlocks layB) backup.content)))
          = writeChunks false layB (regionPayload am active)
              (numChunks (regionPayload am active).length)
              (eraseBlocks false layB (numBlocks layB) backup.content) :=
        funext hstab
      have hh2 : c.sha256 ((List.range ({ am with created_at := ts } :
          ImageMetadata).size).map
            (writeChunks false layB (regionPayload am active)
              (numChunks (regionPayload am active).length)
              (eraseBlocks false layB (numBlocks layB)
                (writeChunks false layB (regionPayload am active)
                  (numChunks (regionPayload am active).length)
                  (eraseBlocks false layB (numBlocks layB) backup.content)))))
          = ({ am with created_at := ts } : ImageMetadata).hash := by
        rw [hfun]; exact hh1
      have hxf2 := xfer_noFaults c false layB (regionPayload am active)
        { am with created_at := ts }
        ⟨some { am with created_at := ts },
         writeChunks false layB (regionPayload am active)
           (numChunks (regionPayload am active).length)
           (eraseBlocks false layB (numBlocks layB) backup.content)⟩
        .backupR hb hh2
      have hcb2 : create_backup c layA layB active
          ⟨some { am with created_at := ts },
           writeChunks false layB (regionPayload am active)
             (numChunks (regionPayload am active).length)
             (eraseBlocks false layB (numBlocks layB) backup.content)⟩
          ts noFaults =
          (none,
           ⟨some { am with created_at := ts },
            writeChunks false layB (regionPayload am active)
              (numChunks (regionPayload am active).length)
              (eraseBlocks false layB (numBlocks layB)
                (writeChunks false layB (regionPayload am active)
                  (numChunks (regionPayload am active).length)
                  (eraseBlocks false layB (numBlocks layB) backup.content)))⟩,
           (List.range (numBlocks layB)).map (FlashEv.eraseEv .backupR) ++
             (List.range (numChunks (regionPayload am active).length)).map
               (FlashEv.writeEv .backupR) ++ [FlashEv.metaEv .backupR]) := by
        simp [create_backup, ham, hv, hxf2]
      refine ⟨?_, ?_, ?_⟩
      · simp only [hcb1, hcb2]
      · simp only [hcb1, hcb2, hfun]
      · intro i
        simp only [hcb1, hcb2]
        exact hstab i
    · simp [create_backup, ham, hv] at h1

/-- C3 witness: concrete fault-free double backup with the timestamp held
at 0 — the second call succeeds and BACKUP is byte-identical (header
equal; stored byte at offset 3 equal). -/
theorem create_backup_idempotent_same_timestamp_witness :
    (create_backup toyCrypto lay0 lay0 reg0
        (create_backup toyCrypto lay0 lay0 reg0 regEmpty 0 noFaults).2.1
        0 noFaults).1 = none
    ∧ (create_backup toyCrypto lay0 lay0 reg0
        (create_backup toyCrypto lay0 lay0 reg0 regEmpty 0 noFaults).2.1
        0 noFaults).2.1.meta
      = (create_backup toyCrypto lay0 lay0 reg0 regEmpty 0 noFaults).2.1.meta
    ∧ (create_backup toyCrypto lay0 lay0 reg0
        (create_backup toyCrypto lay0 lay0 reg0 regEmpty 0 noFaults).2.1
        0 noFaults).2.1.content 3
      = (create_backup toyCrypto lay0 lay0 reg0 regEmpty 0 noFaults).2.1.content 3 := by
  have h := create_backup_idempotent_same_timestamp toyCrypto lay0 lay0 reg0
    regEmpty 0 (by decide)
  exact ⟨h.1, h.2.1, h.2.2 3⟩

/-- C6 counterexample: `create_backup` fails (its defensive re-verify of
ACTIVE fails, `SourceNotTrusted` — a failing step of the algorithm), yet
the BACKUP region is not left erased/empty: it still holds its previous
valid header and reads `Trusted` on the next verification, refuting the
claim's "if any step of create_backup() fails" universality. -/
theorem create_backup_failure_not_empty_cex :
    (create_backup toyCrypto lay0 lay0 regEmpty reg0 0 noFaults).1 =
      some BackupError.sourceNotTrusted
    ∧ (create_backup toyCrypto lay0 lay0 regEmpty reg0 0 noFaults).2.1.meta ≠ none
    ∧ verify toyCrypto lay0
        (create_backup toyCrypto lay0 lay0 regEmpty reg0 0 noFaults).2.1 =
      .Trusted := by
  refine ⟨by decide, by decide, by decide⟩

/-- C6 (amended): in every backup and every restore sequence the metadata
write is strictly the last flash command (any trace is either free of
metadata writes or ends with the single metadata write, and a completed
backup's trace does end with it); and whenever `create_backup` fails after
flash mutation of BACKUP began — in particular when a write fails after
the payload copy but before the metadata write — BACKUP's header is left
invalid and it reads as empty on the next verification, never `Trusted`.
(When the precondition re-verify fails, BACKUP is simply left unchanged —
see the counterexample.) -/
theorem backup_restore_meta_last_and_empty_on_interrupt (c : Crypto)
    (layA layB laySrc layDst : FlashRegion)
    (active backup src dst : RegionState) (ts : Nat) (f g : Faults)
    (t : WTarget) :
    (∃ pre, (∀ e ∈ pre, e ≠ FlashEv.metaEv .backupR) ∧
      ((create_backup c layA layB active backup ts f).2.2 = pre ∨
       (create_backup c layA layB active backup ts f).2.2 =
         pre ++ [FlashEv.metaEv .backupR]))
    ∧ (∃ pre, (∀ e ∈ pre, e ≠ FlashEv.metaEv t) ∧
      ((restore c laySrc layDst src dst g t).2.2 = pre ∨
       (restore c laySrc layDst src dst g t).2.2 = pre ++ [FlashEv.metaEv t]))
    ∧ ((create_backup c layA layB active backup ts f).1 = none →
        ∃ pre, (∀ e ∈ pre, e ≠ FlashEv.metaEv .backupR) ∧
          (create_backup c layA layB active backup ts f).2.2 =
            pre ++ [FlashEv.metaEv .backupR])
    ∧ (∀ err, (create_backup c layA layB active backup ts f).1 = some err →
        (create_backup c layA layB active backup ts f).2.2 ≠ [] →
        (create_backup c layA layB active backup ts f).2.1.meta = none ∧
        verify c layB (create_backup c layA layB active backup ts f).2.1 =
          .RegionEmpty) := by
  refine ⟨?_, ?_, ?_, ?_⟩
  · rcases ham : active.meta with _ | am
    · exact ⟨[], by simp, Or.inl (by simp [create_backup, ham])⟩
    · by_cases hv : verify c layA active = .Trusted
      · have hsh : (create_backup c layA layB active backup ts f).2.2 =
            (xfer c false layB (regionPayload am active)
              { am with created_at := ts } backup f .backupR).2.2 := by
          simp [create_backup, ham, hv]
        rw [hsh]
        exact xfer_events_shape c false layB (regionPayload am active)
          { am with created_at := ts } backup f .backupR
      · exact ⟨[], by simp, Or.inl (by simp [create_backup, ham, hv])⟩
  · rcases hsm : src.meta with _ | sm
    · exact ⟨[], by simp, Or.inl (by simp [restore, hsm])⟩
    · by_cases hv : verify c laySrc src = .Trusted
      · have hsh : (restore c laySrc layDst src dst g t).2.2 =
            (xfer c true layDst (regionPayload sm src) sm dst g t).2.2 := by
          simp [restore, hsm, hv]
        rw [hsh]
        exact xfer_events_shape c true layDst (regionPayload sm src) sm dst g t
      · exact ⟨[], by simp, Or.inl (by simp [restore, hsm, hv])⟩
  · intro hok
    rcases ham : active.meta with _ | am
    · simp [create_backup, ham] at hok
    · by_cases hv : verify c layA active = .Trusted
      · have hx : (xfer c false layB (regionPayload am active)
            { am with created_at := ts } backup f .backupR).1 = none := by
          rw [← Option.map_eq_none' (f := mapBkErr)]
          simpa [create_backup, ham, hv] using hok
        obtain ⟨-, -, -, hev⟩ := xfer_success_parts c false layB
          (regionPayload am active) { am with created_at := ts } backup f
          .backupR hx
        have hsh : (create_backup c layA layB active backup ts f).2.2 =
            (xfer c false layB (regionPayload am active)
              { am with created_at := ts } backup f .backupR).2.2 := by
          simp [create_backup, ham, hv]
        refine ⟨(List.range (numBlocks layB)).map (FlashEv.eraseEv .backupR) ++
          (List.range (numChunks (regionPayload am active).length)).map
            (FlashEv.writeEv .backupR), ?_, by rw [hsh, hev]⟩
        intro e he
        rcases List.mem_append.mp he with hl | hl <;>
          rcases List.mem_map.mp hl with ⟨k, -, rfl⟩ <;>
            exact fun hc => FlashEv.noConfusion hc
      · simp [create_backup, ham, hv] at hok
  · intro err herr hev
    rcases ham : active.meta with _ | am
    · simp [create_backup, ham] at hev
    · by_cases hv : verify c layA active = .Trusted
      · have hsh2 : (create_backup c layA layB active backup ts f).2 =
            (xfer c false layB (regionPayload am active)
              { am with created_at := ts } backup f .backupR).2 := by
          simp [create_backup, ham, hv]
        have hx : ∃ xe, (xfer c false layB (regionPayload am active)
            { am with created_at := ts } backup f .backupR).1 = some xe := by
          rcases hxe : (xfer c false layB (regionPayload am active)
              { am with created_at := ts } backup f .backupR).1 with _ | xe
          · exfalso
            have : (create_backup c layA layB active backup ts f).1 = none := by
              simp [create_backup, ham, hv, hxe]
            rw [this] at herr
            exact Option.noConfusion herr
          · exact ⟨xe, rfl⟩
        obtain ⟨xe, hxe⟩ := hx
        have hevx : (xfer c false layB (regionPayload am active)
            { am with created_at := ts } backup f .backupR).2.2 ≠ [] := by
          intro hnil
          apply hev
          rw [show (create_backup c layA layB active backup ts f).2.2 =
            (xfer c false layB (regionPayload am active)
              { am with created_at := ts } backup f .backupR).2.2 from
            congrArg Prod.snd hsh2]
          exact hnil
        have hmn := xfer_fail_meta_none c false layB (regionPayload am active)
          { am with created_at := ts } backup f .backupR xe hxe hevx
        have hmeta : (create_backup c layA layB active backup ts f).2.1.meta
            = none := by
          rw [show (create_backup c layA layB active backup ts f).2.1 =
            (xfer c false layB (regionPayload am active)
              { am with created_at := ts } backup f .backupR).2.1 from
            congrArg Prod.fst hsh2]
          exact hmn
        exact ⟨hmeta, verify_none c layB _ hmeta⟩
      · simp [create_backup, ham, hv] at hev

/-- C6 witness: a metadata-write fault after a completed payload copy
leaves BACKUP's header invalid; the region reads as empty on the next
verification. -/
theorem backup_meta_last_witness :
    (create_backup toyCrypto lay0 lay0 reg0 regEmpty 5 mfFault).2.1.meta = none
    ∧ verify toyCrypto lay0
        (create_backup toyCrypto lay0 lay0 reg0 regEmpty 5 mfFault).2.1 =
      .RegionEmpty := by
  have h := backup_restore_meta_last_and_empty_on_interrupt toyCrypto lay0 lay0
    lay0 lay0 reg0 regEmpty reg0 regEmpty 5 mfFault noFaults .activeR
  exact h.2.2.2 BackupError.writeFailed (by decide) (by decide)

/-- C8: the operations `platform.h` declares are exactly (a permutation
of, with no duplicates on either side) the primitives named by the spec's
external-interfaces section: flash init/read/write/erase/lock/unlock/
get_size, crypto init/sha256/sign/verify, boot-detection init, system
get_timestamp/reboot/delay_ms, enter_safe_mode, authenticate, debug_log,
platform_init, and the USB mass-storage file operations. -/
theorem platform_interface_exact :
    platformInterfaceNames.Perm specConsumedNames
    ∧ platformInterfaceNames.Nodup
    ∧ specConsumedNames.Nodup := by
  refine ⟨by decide, by decide, by decide⟩

/-- C9 counterexample: the header declares 26 operations, not
approximately 45 — the count is not even within 40..50. -/
theorem declared_operation_count_cex :
    declaredOperationCount = 26
    ∧ ¬ (40 ≤ declaredOperationCount ∧ declaredOperationCount ≤ 50) := by
  refine ⟨by decide, by decide⟩

/-- C9 (amended): the original interface surface comprises 26 declared
operations, across 140 newline-terminated repository lines in total
(50 for the header, 90 for the README), dominated by documentation
(the README alone is more than half of the total). -/
theorem repo_surface_counts :
    declaredOperationCount = 26
    ∧ repositoryLineCount = 140
    ∧ 130 ≤ repositoryLineCount ∧ repositoryLineCount ≤ 150
    ∧ repositoryLineCount < 2 * readmeLineCount := by
  refine ⟨by decide, by decide, by decide, by decide, by decide⟩

/-- C10: `platform_sha256` is declared returning `void` (no failure path:
the hash is modelled as a total function) while `platform_sign` and
`platform_verify` return `bool`; consequently every non-`Trusted` verifier
outcome arises from the metadata check (absent or insane header), the hash
comparison, or signature verification — never from a failed hash
computation. -/
theorem sha256_total_and_outcome_sources :
    declRet "platform_sha256" = some CRet.cvoid
    ∧ declRet "platform_sign" = some CRet.cbool
    ∧ declRet "platform_verify" = some CRet.cbool
    ∧ ∀ (c : Crypto) (lay : FlashRegion) (r : RegionState),
        verify c lay r ≠ .Trusted →
          (r.meta = none ∧ verify c lay r = .RegionEmpty)
          ∨ (∃ m, r.meta = some m ∧ metaSane lay m = false
              ∧ verify c lay r = .MetadataCorrupt)
          ∨ (∃ m, r.meta = some m ∧ metaSane lay m = true
              ∧ c.sha256 (regionPayload m r) ≠ m.hash
              ∧ verify c lay r = .HashMismatch)
          ∨ (∃ m, r.meta = some m ∧ metaSane lay m = true
              ∧ c.sha256 (regionPayload m r) = m.hash
              ∧ c.verifySig m.hash m.signature = false
              ∧ verify c lay r = .SignatureMismatch) := by
  refine ⟨by decide, by decide, by decide, ?_⟩
  intro c lay r hne
  rcases hm : r.meta with _ | m
  · exact Or.inl ⟨rfl, verify_none c lay r hm⟩
  · by_cases h1 : metaSane lay m = true
    · by_cases h2 : c.sha256 (regionPayload m r) = m.hash
      · by_cases h3 : c.verifySig m.hash m.signature = true
        · exact absurd (by rw [verify, hm]; simp [h1, h2, h3]) hne
        · have h3f : c.verifySig m.hash m.signature = false := by
            revert h3; cases c.verifySig m.hash m.signature <;> simp
          refine Or.inr (Or.inr (Or.inr ⟨m, rfl, h1, h2, h3f, ?_⟩))
          rw [verify, hm]; simp [h1, h2, h3f]
      · refine Or.inr (Or.inr (Or.inl ⟨m, rfl, h1, h2, ?_⟩))
        rw [verify, hm]; simp [h1, h2]
    · have h1f : metaSane lay m = false := by
        revert h1; cases metaSane lay m <;> simp
      refine Or.inr (Or.inl ⟨m, rfl, h1f, ?_⟩)
      rw [verify, hm]; simp [h1f]

/-- C10 witness: the outcome-source disjunction instantiated at a concrete
header-less region (its non-`Trusted` outcome is `RegionEmpty`, i.e. it
comes from the metadata check). -/
theorem sha256_total_and_outcome_sources_witness :
    (regEmpty.meta = none ∧ verify toyCrypto lay0 regEmpty = .RegionEmpty)
    ∨ (∃ m, regEmpty.meta = some m ∧ metaSane lay0 m = false
        ∧ verify toyCrypto lay0 regEmpty = .MetadataCorrupt)
    ∨ (∃ m, regEmpty.meta = some m ∧ metaSane lay0 m = true
        ∧ toyCrypto.sha256 (regionPayload m regEmpty) ≠ m.hash
        ∧ verify toyCrypto lay0 regEmpty = .HashMismatch)
    ∨ (∃ m, regEmpty.meta = some m ∧ metaSane lay0 m = true
        ∧ toyCrypto.sha256 (regionPayload m regEmpty) = m.hash
        ∧ toyCrypto.verifySig m.hash m.signature = false
        ∧ verify toyCrypto lay0 regEmpty = .SignatureMismatch) := by
  exact sha256_total_and_outcome_sources.2.2.2 toyCrypto lay0 regEmpty (by decide)

end SRC
